import Mathlib

/-!
Verification development for the kubernetes-model-scaler deployment
lifecycle engine.  The definitions below are a shallow embedding of the
Python sources:

* `deployer2/zk_mixin.py` — the per-model discovery-store (ZooKeeper)
  operations (`register_warming_model`, `register_active_model`,
  `register_cooling_model`, `unregister_*`, `restore_original_state`);
* `router/start_route_v2.py` and `router/stop_route_v2.py` — the start and
  stop sagas with their compensation logic;
* `cloud/gcp/compute/resource_analyzer.py` — pool placement
  (`find_suitable_pool`, `can_deploy`) and memory parsing (`_parse_memory`);
* `deployer2/deployment_mixin.py` / `load_balancer_mixin.py` — the label
  stamping of created Kubernetes objects;
* `deployer2/kserve_mixin.py` — the readiness wait loop.

Modelling conventions: the store is viewed per model id (operations for one
id never touch the znodes of another); znode payloads are opaque byte
strings; the kazoo client primitives themselves are assumed available
(failure injection happens at the points the routes distinguish: manifest
apply, load-balancer creation, load-balancer IP acquisition, the health
probe, and cluster-resource removal).
-/

namespace KMS

/-- The three lifecycle paths `/models/{warming,active,cooling}/{id}` of the
discovery store. -/
inductive ZkState
  | warming
  | active
  | cooling
deriving DecidableEq, Repr

/-- Per-model view of the discovery store: the payload stored at
`/models/{state}/{id}`, if that znode exists.  `some ""` is a znode created
by kazoo `ensure_path` whose data was never set. -/
structure ZkStore where
  warming : Option String
  active : Option String
  cooling : Option String
deriving DecidableEq, Repr

/-- The store with no znode for the model id. -/
def ZkStore.empty : ZkStore := ⟨none, none, none⟩

def ZkStore.get (s : ZkStore) : ZkState → Option String
  | .warming => s.warming
  | .active => s.active
  | .cooling => s.cooling

def ZkStore.set (s : ZkStore) : ZkState → Option String → ZkStore
  | .warming, v => { s with warming := v }
  | .active, v => { s with active := v }
  | .cooling, v => { s with cooling := v }

/-- One primitive mutation performed through the kazoo client on this
model's znodes. -/
inductive ZkOp
  | ensure (k : ZkState)
  | setData (k : ZkState) (d : String)
  | delete (k : ZkState)
deriving DecidableEq, Repr

/-- Effect of a primitive kazoo call: `ensure_path` creates the node with
empty data when absent, `set` overwrites the data, `delete` removes the
node. -/
def applyOp (s : ZkStore) : ZkOp → ZkStore
  | .ensure k =>
      match s.get k with
      | some _ => s
      | none => s.set k (some "")
  | .setData k d => s.set k (some d)
  | .delete k => s.set k none

def runOps (s : ZkStore) (ops : List ZkOp) : ZkStore :=
  ops.foldl applyOp s

/-- Every store passed through while executing `ops` from `s`, the initial
store included: the "instants" of the call sequence. -/
def stepStores (s : ZkStore) (ops : List ZkOp) : List ZkStore :=
  List.scanl applyOp s ops

/-- `unregister_warming_model` / `unregister_active_model` /
`unregister_cooling_model` (zk_mixin.py): delete the znode if it exists;
a missing node is not an error. -/
def unregisterOps (s : ZkStore) (k : ZkState) : List ZkOp :=
  if (s.get k).isSome then [ZkOp.delete k] else []

/-- `register_warming_model` (zk_mixin.py): `ensure_path` then `set` with
the warming payload produced by `_create_zk_data("warming")`. -/
def registerWarmingOps (d : String) : List ZkOp :=
  [ZkOp.ensure .warming, ZkOp.setData .warming d]

/-- `register_active_model` (zk_mixin.py): delete the warming znode when it
exists, then `ensure_path` the active znode, then compute the active
payload with `_create_zk_data("active")` and `set` it.  `d = none` models
`_create_zk_data` raising `RuntimeError` because no LoadBalancer IP could
be found — the exception fires after `ensure_path` has already created the
active znode and before any data is written. -/
def registerActiveOps (s : ZkStore) (d : Option String) : List ZkOp :=
  (if s.warming.isSome then [ZkOp.delete .warming] else [])
    ++ [ZkOp.ensure .active]
    ++ (match d with
        | some v => [ZkOp.setData .active v]
        | none => [])

/-- `register_cooling_model` (zk_mixin.py): `ensure_path` then `set` on the
cooling znode.  The previously-present state is only read (captured for
recovery), never removed here. -/
def registerCoolingOps (d : String) : List ZkOp :=
  [ZkOp.ensure .cooling, ZkOp.setData .cooling d]

/-- The original state and payload captured by `register_cooling_model`:
the active entry when present, otherwise the warming entry, otherwise
nothing. -/
def captureOriginal (s : ZkStore) : Option (ZkState × String) :=
  match s.active with
  | some d => some (.active, d)
  | none =>
      match s.warming with
      | some d => some (.warming, d)
      | none => none

/-- `restore_original_state` (zk_mixin.py): if no original state was
captured, or the captured payload is empty (Python falsiness of `b""`),
return failure at once — without touching the cooling znode.  Otherwise
first remove the cooling znode, then `ensure_path` and `set` the original
path with the captured payload. -/
def restoreOps (s : ZkStore) (orig : Option (ZkState × String)) :
    List ZkOp × Bool :=
  match orig with
  | none => ([], false)
  | some (k, d) =>
      if d = "" then ([], false)
      else (unregisterOps s .cooling ++ [ZkOp.ensure k, ZkOp.setData k d], true)

/-- Environment of a start request: the warming payload, the outcomes of
the manifest apply and load-balancer creation, the readiness-wait result,
and the active payload (`none` models the LoadBalancer IP being
unavailable at promotion, which makes `_create_zk_data("active")` raise). -/
structure StartEnv where
  warmingData : String
  applyYamlOk : Bool
  createLbOk : Bool
  ready : Bool
  activeData : Option String
deriving DecidableEq, Repr

/-- Outcome of a start request: the discovery-store calls performed (in
order, compensations included), whether the request returned success, and
whether the "model is not ready" warning was logged. -/
structure StartOutcome where
  ops : List ZkOp
  success : Bool
  readyWarning : Bool
deriving DecidableEq, Repr

/-- `start_model` (start_route_v2.py): register warming, apply the
manifest, create the load balancer, wait for readiness (a `false` result
only logs a warning), then promote with `register_active_model`.  On any
exception `cleanup_deployment` runs the compensations for the completed
step flags; the only discovery-store compensations are
`unregister_active_model` (only when `active_registered` was set — which
happens strictly after the whole of `register_active_model` succeeded) and
`unregister_warming_model`. -/
def startRun (e : StartEnv) (s : ZkStore) : StartOutcome :=
  let ops1 := registerWarmingOps e.warmingData
  let s1 := runOps s ops1
  if e.applyYamlOk = false then
    -- apply_yaml raised: compensation unregisters warming only.
    ⟨ops1 ++ unregisterOps s1 .warming, false, false⟩
  else if e.createLbOk = false then
    -- create_load_balancer raised: remove the inference service (not a
    -- znode operation) and unregister warming.
    ⟨ops1 ++ unregisterOps s1 .warming, false, false⟩
  else
    match e.activeData with
    | some d =>
        ⟨ops1 ++ registerActiveOps s1 (some d), true, e.ready = false⟩
    | none =>
        -- register_active_model raised inside _create_zk_data("active"):
        -- the warming delete and the active ensure_path already ran;
        -- active_registered is still false, so cleanup only tries to
        -- unregister warming (already gone).
        let ops2 := registerActiveOps s1 none
        let s2 := runOps s1 ops2
        ⟨ops1 ++ ops2 ++ unregisterOps s2 .warming, false, e.ready = false⟩

/-- Environment of a stop request: the cooling payload and the outcomes of
the two cluster-resource removal steps (inference service, load
balancer). -/
structure StopEnv where
  coolingData : String
  removeIsvcOk : Bool
  removeLbOk : Bool
deriving DecidableEq, Repr

/-- Outcome of a stop request: the discovery-store calls performed and
whether the request returned success. -/
structure StopOutcome where
  ops : List ZkOp
  success : Bool
deriving DecidableEq, Repr

/-- `stop_model` (stop_route_v2.py): register the model as cooling
(capturing the original state), remove the inference service and the load
balancer, and on success unregister warming, active and cooling in that
order.  If either removal raises, `restore_original_state` runs and the
error is re-raised. -/
def stopRun (e : StopEnv) (s : ZkStore) : StopOutcome :=
  let orig := captureOriginal s
  let ops1 := registerCoolingOps e.coolingData
  let s1 := runOps s ops1
  if e.removeIsvcOk && e.removeLbOk then
    let o2 := unregisterOps s1 .warming
    let s2 := runOps s1 o2
    let o3 := unregisterOps s2 .active
    let s3 := runOps s2 o3
    let o4 := unregisterOps s3 .cooling
    ⟨ops1 ++ o2 ++ o3 ++ o4, true⟩
  else
    let r := restoreOps s1 orig
    ⟨ops1 ++ r.1, false⟩

/-- Quiescent reachability: the stores obtainable at the boundaries of
whole start/stop requests (the spec's concurrency discipline serializes
the operations on one model id, so a new request starts from the final
store of the previous one). -/
inductive ReachQ : ZkStore → Prop
  | init : ReachQ ZkStore.empty
  | start (e : StartEnv) {s : ZkStore} :
      ReachQ s → ReachQ (runOps s (startRun e s).ops)
  | stop (e : StopEnv) {s : ZkStore} :
      ReachQ s → ReachQ (runOps s (stopRun e s).ops)

/-- A store observable at some instant: an intermediate state of a start
or stop request issued from a quiescent store (initial and final stores
included). -/
def Instant (t : ZkStore) : Prop :=
  ∃ s, ReachQ s ∧
    ((∃ e : StartEnv, t ∈ stepStores s (startRun e s).ops) ∨
     (∃ e : StopEnv, t ∈ stepStores s (stopRun e s).ops))

/-- The model id is present in at most one of the three lifecycle paths. -/
def atMostOne (s : ZkStore) : Prop :=
  (s.warming.isSome.toNat + s.active.isSome.toNat + s.cooling.isSome.toNat) ≤ 1

instance (s : ZkStore) : Decidable (atMostOne s) := by
  unfold atMostOne; infer_instance

end KMS

namespace KMS

/-- Disciplined quiescent reachability. -/
inductive ReachQD : ZkStore → Prop
  | init : ReachQD ZkStore.empty
  | start (e : StartEnv) {s : ZkStore} :
      ReachQD s → s.warming = none → s.active = none → s.cooling = none →
      ReachQD (runOps s (startRun e s).ops)
  | stop (e : StopEnv) {s : ZkStore} :
      ReachQD s → ReachQD (runOps s (stopRun e s).ops)

def InstantD (t : ZkStore) : Prop :=
  ∃ s, ReachQD s ∧
    ((∃ e : StartEnv,
        (s.warming = none ∧ s.active = none ∧ s.cooling = none) ∧
        t ∈ stepStores s (startRun e s).ops) ∨
     (∃ e : StopEnv, t ∈ stepStores s (stopRun e s).ops))

def warmingActiveExclusive (s : ZkStore) : Prop :=
  ¬ (s.warming.isSome ∧ s.active.isSome)

theorem runOps_mem_stepStores (s : ZkStore) (ops : List ZkOp) :
    runOps s ops ∈ stepStores s ops := by
  induction ops generalizing s with
  | nil => simp [runOps, stepStores, List.scanl]
  | cons o ops ih =>
      simp only [runOps, stepStores, List.scanl, List.foldl] at *
      exact List.mem_cons_of_mem _ (ih (applyOp s o))

theorem startTrace_wa (e : StartEnv) (s : ZkStore)
    (hw : s.warming = none) (ha : s.active = none) (hc : s.cooling = none) :
    ∀ t ∈ stepStores s (startRun e s).ops, warmingActiveExclusive t := by
  intro t ht
  obtain ⟨w, a, c⟩ := s
  simp only at hw ha hc
  subst hw ha hc
  rcases e with ⟨wd, ay, lb, rd, ad⟩
  rcases ay <;> rcases lb <;> rcases ad with _ | v <;>
    simp [startRun, registerWarmingOps, registerActiveOps, unregisterOps,
      runOps, applyOp, ZkStore.get, ZkStore.set, stepStores, List.scanl] at ht <;>
    casesm* _ ∨ _ <;> subst_vars <;> simp [warmingActiveExclusive]

theorem stopTrace_wa (e : StopEnv) (s : ZkStore)
    (hs : warmingActiveExclusive s) :
    ∀ t ∈ stepStores s (stopRun e s).ops, warmingActiveExclusive t := by
  intro t ht
  obtain ⟨w, a, c⟩ := s
  rcases e with ⟨cd, r1, r2⟩
  rcases w with _ | wv <;> rcases a with _ | av <;> rcases c with _ | cv <;>
    rcases r1 <;> rcases r2 <;>
    (try rcases eq_or_ne av "" with rfl | hav) <;>
    (try rcases eq_or_ne wv "" with rfl | hwv) <;>
    simp_all [stopRun, registerCoolingOps, unregisterOps, captureOriginal,
      restoreOps, runOps, applyOp, ZkStore.get, ZkStore.set, stepStores,
      List.scanl, warmingActiveExclusive] <;>
    casesm* _ ∨ _ <;> subst_vars <;> simp_all

end KMS

namespace KMS

theorem reachQD_wa {s : ZkStore} (h : ReachQD s) : warmingActiveExclusive s := by
  induction h with
  | init => simp [warmingActiveExclusive, ZkStore.empty]
  | start e hr hw ha hc ih =>
      exact startTrace_wa e _ hw ha hc _ (runOps_mem_stepStores _ _)
  | stop e hr ih =>
      exact stopTrace_wa e _ ih _ (runOps_mem_stepStores _ _)

/-- Amended C1. -/
theorem warming_active_exclusive_of_instantD :
    ∀ t, InstantD t → warmingActiveExclusive t := by
  rintro t ⟨s, hs, ⟨e, ⟨hw, ha, hc⟩, hm⟩ | ⟨e, hm⟩⟩
  · exact startTrace_wa e s hw ha hc t hm
  · exact stopTrace_wa e s (reachQD_wa hs) t hm

/-- C1 counterexample. -/
theorem zk_at_most_one_refuted :
    ¬ (∀ t, Instant t → atMostOne t) := by
  intro h
  have hs : ReachQ (runOps ZkStore.empty
      (startRun ⟨"w", true, true, true, some "a"⟩ ZkStore.empty).ops) :=
    ReachQ.start _ ReachQ.init
  have h0 : runOps ZkStore.empty
      (startRun ⟨"w", true, true, true, some "a"⟩ ZkStore.empty).ops
      = (⟨none, some "a", none⟩ : ZkStore) := by decide
  rw [h0] at hs
  have hinst : Instant ⟨none, some "a", some "c"⟩ := by
    refine ⟨⟨none, some "a", none⟩, hs, Or.inr ⟨⟨"c", false, true⟩, ?_⟩⟩
    decide
  have := h _ hinst
  simp [atMostOne] at this

/-- Witness for the amended C1 theorem. -/
theorem warming_active_exclusive_of_instantD_witness :
    warmingActiveExclusive ⟨none, some "a", some "c"⟩ := by
  apply warming_active_exclusive_of_instantD
  have hs : ReachQD (runOps ZkStore.empty
      (startRun ⟨"w", true, true, true, some "a"⟩ ZkStore.empty).ops) :=
    ReachQD.start _ ReachQD.init rfl rfl rfl
  have h0 : runOps ZkStore.empty
      (startRun ⟨"w", true, true, true, some "a"⟩ ZkStore.empty).ops
      = (⟨none, some "a", none⟩ : ZkStore) := by decide
  rw [h0] at hs
  exact ⟨⟨none, some "a", none⟩, hs, Or.inr ⟨⟨"c", false, true⟩, by decide⟩⟩

end KMS

namespace KMS

/-- C2 evaluation at the failing input. -/
theorem start_cleanup_leaves_empty_active_znode :
    (startRun ⟨"w", true, true, true, none⟩ ZkStore.empty).success = false ∧
    runOps ZkStore.empty (startRun ⟨"w", true, true, true, none⟩ ZkStore.empty).ops
      = (⟨none, some "", none⟩ : ZkStore) := by
  decide

/-- C3. -/
theorem stop_restores_original_on_removal_failure
    (e : StopEnv) (s : ZkStore) (k : ZkState) (p : String)
    (hfail : (e.removeIsvcOk && e.removeLbOk) = false)
    (hp : p ≠ "")
    (hstate : (k = .active ∧ s.active = some p ∧ s.warming = none) ∨
              (k = .warming ∧ s.warming = some p ∧ s.active = none)) :
    (stopRun e s).success = false ∧
    (runOps s (stopRun e s).ops).get k = some p ∧
    (runOps s (stopRun e s).ops).cooling = none ∧
    ZkOp.setData k p ∈ (stopRun e s).ops := by
  rcases e with ⟨cd, r1, r2⟩
  obtain ⟨w, a, c⟩ := s
  rcases hstate with ⟨rfl, ha, hw⟩ | ⟨rfl, hw, ha⟩ <;>
    simp only at ha hw <;> subst ha hw <;>
    rcases r1 <;> rcases r2 <;> simp at hfail <;>
    rcases c with _ | cv <;>
    simp_all [stopRun, registerCoolingOps, unregisterOps, captureOriginal,
      restoreOps, runOps, applyOp, ZkStore.get, ZkStore.set]

theorem stop_restores_witness :
    ((⟨"c", false, true⟩ : StopEnv).removeIsvcOk &&
        (⟨"c", false, true⟩ : StopEnv).removeLbOk) = false ∧
    (stopRun ⟨"c", false, true⟩ ⟨none, some "p", none⟩).success = false := by
  refine ⟨by decide, ?_⟩
  exact (stop_restores_original_on_removal_failure ⟨"c", false, true⟩
    ⟨none, some "p", none⟩ .active "p" (by decide) (by decide)
    (Or.inl ⟨rfl, rfl, rfl⟩)).1

/-- C10. -/
theorem stop_leaves_cooling_without_original
    (e : StopEnv) (s : ZkStore)
    (hfail : (e.removeIsvcOk && e.removeLbOk) = false)
    (ha : s.active = none) (hw : s.warming = none) :
    (stopRun e s).success = false ∧
    (runOps s (stopRun e s).ops).cooling = some e.coolingData ∧
    ZkOp.delete .cooling ∉ (stopRun e s).ops := by
  rcases e with ⟨cd, r1, r2⟩
  obtain ⟨w, a, c⟩ := s
  simp only at ha hw
  subst ha hw
  rcases r1 <;> rcases r2 <;> simp at hfail <;>
    rcases c with _ | cv <;>
    simp_all [stopRun, registerCoolingOps, unregisterOps, captureOriginal,
      restoreOps, runOps, applyOp, ZkStore.get, ZkStore.set]

theorem stop_leaves_cooling_witness :
    (stopRun ⟨"c", false, false⟩ ZkStore.empty).success = false ∧
    (runOps ZkStore.empty (stopRun ⟨"c", false, false⟩ ZkStore.empty).ops).cooling
      = some "c" := by
  have h := stop_leaves_cooling_without_original ⟨"c", false, false⟩
    ZkStore.empty (by decide) rfl rfl
  exact ⟨h.1, h.2.1⟩

/-- An operation that creates or sets the active znode. -/
def isActiveWrite : ZkOp → Bool
  | .ensure .active => true
  | .setData .active _ => true
  | _ => false

/-- C4. -/
theorem register_active_deletes_warming_before_writing
    (s : ZkStore) (d : Option String) :
    (s.warming.isSome →
      (registerActiveOps s d).head? = some (ZkOp.delete .warming)) ∧
    ∀ i (h : i < (registerActiveOps s d).length),
      isActiveWrite ((registerActiveOps s d).get ⟨i, h⟩) = true →
      (runOps s ((registerActiveOps s d).take i)).warming = none := by
  obtain ⟨w, a, c⟩ := s
  rcases w with _ | wv <;> rcases a with _ | av <;> rcases d with _ | dv <;>
    (refine ⟨by simp [registerActiveOps], ?_⟩) <;>
    intro i h hw <;>
    simp only [registerActiveOps, List.length_append, List.length_cons,
      List.length_nil, List.length_singleton, Option.isSome_some,
      Option.isSome_none, if_true, if_false, Bool.false_eq_true,
      List.nil_append, List.cons_append] at h <;>
    interval_cases i <;>
    simp_all [registerActiveOps, isActiveWrite, runOps, applyOp,
      ZkStore.get, ZkStore.set]

theorem register_active_order_witness :
    isActiveWrite ((registerActiveOps ⟨some "w", none, none⟩ (some "a")).get
      ⟨1, by decide⟩) = true ∧
    (runOps ⟨some "w", none, none⟩
      ((registerActiveOps ⟨some "w", none, none⟩ (some "a")).take 1)).warming
      = none := by
  refine ⟨by decide, ?_⟩
  exact (register_active_deletes_warming_before_writing
    ⟨some "w", none, none⟩ (some "a")).2 1 (by decide) (by decide)

/-- C5. -/
theorem start_promotes_despite_not_ready
    (e : StartEnv) (s : ZkStore) (d : String)
    (hy : e.applyYamlOk = true) (hl : e.createLbOk = true)
    (hd : e.activeData = some d) (hr : e.ready = false) :
    (startRun e s).success = true ∧
    (startRun e s).readyWarning = true ∧
    ZkOp.setData .active d ∈ (startRun e s).ops ∧
    (runOps s (startRun e s).ops).active = some d := by
  rcases e with ⟨wd, ay, lb, rd, ad⟩
  simp only at hy hl hd hr
  subst hy hl hd hr
  obtain ⟨w, a, c⟩ := s
  simp [startRun, registerWarmingOps, registerActiveOps, unregisterOps,
    runOps, applyOp, ZkStore.get, ZkStore.set]

theorem start_promotes_witness :
    (startRun ⟨"w", true, true, false, some "a"⟩ ZkStore.empty).success = true ∧
    (startRun ⟨"w", true, true, false, some "a"⟩ ZkStore.empty).readyWarning
      = true := by
  have h := start_promotes_despite_not_ready ⟨"w", true, true, false, some "a"⟩
    ZkStore.empty "a" rfl rfl rfl rfl
  exact ⟨h.1, h.2.1⟩

end KMS

namespace KMS

/-!
Placement engine (`cloud/gcp/compute/resource_analyzer.py`).  Manifests are
abstracted to the resource requirement record `parse_deployment_resources`
extracts from them (`none` models the empty/falsy dict returned for an
unrecognized kind); floating-point cpu/memory quantities are modelled as
the rationals they denote, which preserves every `>=` comparison the
placement code performs; gpu availability is an integer (allocatable minus
used can be negative).  Pool inventories: `get_all_pool_resources` returns
a (truthy) totals dict for every configured pool — `nodes_by_pool` is
seeded with every pool name, so `get_pool_resources` never returns `None`
for a configured pool — hence per-pool totals are always present.
-/

/-- The six totals of `get_pool_resources`'s `total` dict. -/
structure PoolTotals where
  cpuReqAvail : ℚ
  memGiReqAvail : ℚ
  gpuReqAvail : ℤ
  cpuLimAvail : ℚ
  memGiLimAvail : ℚ
  gpuLimAvail : ℤ
deriving DecidableEq, Repr

/-- A configured node pool, in `node_pools.json` declaration order:
its name, the declared `gpu.count` when the config has a `gpu` entry
(`gpu_specs`), and its live availability totals. -/
structure Pool where
  name : String
  gpuSpec : Option ℕ
  totals : PoolTotals
deriving DecidableEq, Repr

/-- The resource requirements `parse_deployment_resources` extracts. -/
structure DeployResources where
  cpuRequests : ℚ
  memGiRequests : ℚ
  gpuRequests : ℕ
  cpuLimits : ℚ
  memGiLimits : ℚ
  gpuLimits : ℕ
deriving DecidableEq, Repr

def DeployResources.cpuAsk (r : DeployResources) (useLimits : Bool) : ℚ :=
  if useLimits then r.cpuLimits else r.cpuRequests

def DeployResources.memAsk (r : DeployResources) (useLimits : Bool) : ℚ :=
  if useLimits then r.memGiLimits else r.memGiRequests

def DeployResources.gpuAsk (r : DeployResources) (useLimits : Bool) : ℕ :=
  if useLimits then r.gpuLimits else r.gpuRequests

def PoolTotals.cpuAvail (t : PoolTotals) (useLimits : Bool) : ℚ :=
  if useLimits then t.cpuLimAvail else t.cpuReqAvail

def PoolTotals.memAvail (t : PoolTotals) (useLimits : Bool) : ℚ :=
  if useLimits then t.memGiLimAvail else t.memGiReqAvail

def PoolTotals.gpuAvail (t : PoolTotals) (useLimits : Bool) : ℤ :=
  if useLimits then t.gpuLimAvail else t.gpuReqAvail

/-- `has_gpu` in `find_suitable_pool`: the pool has a `gpu_specs` entry
with `count > 0`. -/
def poolHasGpu (p : Pool) : Bool :=
  match p.gpuSpec with
  | some c => decide (0 < c)
  | none => false

/-- The resource check of `find_suitable_pool`, in the code's order:
`gpu_available >= gpu_requirement and memory_available >= memory_requirement
and cpu_available >= cpu_requirement`. -/
def poolFits (useLimits : Bool) (r : DeployResources) (p : Pool) : Bool :=
  decide (p.totals.gpuAvail useLimits ≥ (r.gpuAsk useLimits : ℤ) ∧
    p.totals.memAvail useLimits ≥ r.memAsk useLimits ∧
    p.totals.cpuAvail useLimits ≥ r.cpuAsk useLimits)

/-- The loop body of `find_suitable_pool`: a pool is skipped when the ask
needs a GPU and `has_gpu` is false; otherwise the availability check
decides the match; the first match is returned. -/
def findSuitableLoop (useLimits : Bool) (r : DeployResources) :
    List Pool → Option String × Bool
  | [] => (none, false)
  | p :: rest =>
      if decide (0 < r.gpuAsk useLimits) && !poolHasGpu p then
        findSuitableLoop useLimits r rest
      else if poolFits useLimits r p then
        (some p.name, true)
      else
        findSuitableLoop useLimits r rest

/-- `find_suitable_pool`: `none` requirements (falsy dict) short-circuit to
no fit, otherwise the pools are scanned in declaration order. -/
def findSuitablePool (useLimits : Bool) (r : Option DeployResources)
    (pools : List Pool) : Option String × Bool :=
  match r with
  | none => (none, false)
  | some r => findSuitableLoop useLimits r pools

/-- Result of `can_deploy`: either the suitable pool, or the no-fit detail
record with the requested resources and every pool's availability totals. -/
inductive DeployDecision
  | canFit (pool : String)
  | noFit (requested : Option DeployResources)
      (available : List (String × PoolTotals))
deriving DecidableEq, Repr

/-- `can_deploy`: delegate to `find_suitable_pool`; on failure rebuild the
requirements and report them with each configured pool's totals. -/
def canDeploy (useLimits : Bool) (r : Option DeployResources)
    (pools : List Pool) : DeployDecision :=
  match findSuitablePool useLimits r pools with
  | (some p, true) => .canFit p
  | _ => .noFit r (pools.map fun p => (p.name, p.totals))

/-- The spec's wording of the skip rule: the pool is skipped exactly when
the GPU ask is positive and the pool's declared GPU count (zero when the
config has no `gpu` entry) is zero. -/
def poolSkippedSpec (useLimits : Bool) (r : DeployResources) (p : Pool) :
    Bool :=
  decide (0 < r.gpuAsk useLimits ∧ p.gpuSpec.getD 0 = 0)

/-- The spec's wording of the placement rule: return the first pool in
declared order that is not skipped and whose availability covers the
ask. -/
def findSuitablePoolSpec (useLimits : Bool) (r : DeployResources)
    (pools : List Pool) : Option String :=
  (pools.find? fun p =>
    !poolSkippedSpec useLimits r p && poolFits useLimits r p).map Pool.name

theorem skip_eq_spec (useLimits : Bool) (r : DeployResources) (p : Pool) :
    (decide (0 < r.gpuAsk useLimits) && !poolHasGpu p)
      = poolSkippedSpec useLimits r p := by
  rcases hg : p.gpuSpec with _ | c
  · simp [poolHasGpu, poolSkippedSpec, hg]
  · by_cases hc : c = 0
    · subst hc
      simp [poolHasGpu, poolSkippedSpec, hg]
    · simp [poolHasGpu, poolSkippedSpec, hg, Nat.pos_of_ne_zero hc, hc]

/-- Claim C6: the placement decision returns the first pool, in declared
order, that is not skipped (skipped iff the GPU ask is positive and the
declared GPU count is zero) and whose available cpu, memory (GiB) and gpu
cover the ask; when no pool fits, `can_deploy` reports no-fit with the
requested resources and each pool's availability totals. -/
theorem find_suitable_pool_first_fit (useLimits : Bool)
    (r : DeployResources) (pools : List Pool) :
    findSuitablePool useLimits (some r) pools
      = (findSuitablePoolSpec useLimits r pools,
         (findSuitablePoolSpec useLimits r pools).isSome) ∧
    canDeploy useLimits (some r) pools
      = (match findSuitablePoolSpec useLimits r pools with
         | some p => .canFit p
         | none => .noFit (some r)
             (pools.map fun p => (p.name, p.totals))) := by
  have key : findSuitableLoop useLimits r pools
      = ((findSuitablePoolSpec useLimits r pools),
         (findSuitablePoolSpec useLimits r pools).isSome) := by
    induction pools with
    | nil => simp [findSuitableLoop, findSuitablePoolSpec]
    | cons p rest ih =>
        rw [findSuitableLoop, skip_eq_spec]
        rcases hskip : poolSkippedSpec useLimits r p with _ | _
        · rcases hfit : poolFits useLimits r p with _ | _
          · simpa [findSuitablePoolSpec, List.find?, hskip, hfit] using ih
          · simp [findSuitablePoolSpec, List.find?, hskip, hfit]
        · simpa [findSuitablePoolSpec, List.find?, hskip] using ih
  refine ⟨by simp [findSuitablePool, key], ?_⟩
  simp only [canDeploy, findSuitablePool, key]
  rcases h : findSuitablePoolSpec useLimits r pools with _ | p <;> simp

end KMS

namespace KMS

/-!
Label stamping of created Kubernetes objects.  `apply_yaml`
(deployer2/deployment_mixin.py) downloads the manifest, and for
`kind: InferenceService` injects `metadata.labels["model-id"]` and — when
the document has `spec.predictor` — the predictor pod-template label
`spec.predictor.template.metadata.labels["model-id"]`.
`create_load_balancer` (deployer2/load_balancer_mixin.py) builds a
`V1Service` whose `V1ObjectMeta` carries only `name` and `namespace`.
Nested optional YAML mappings are modelled with `Option`; label maps are
association lists (dict assignment is modelled with the updated binding at
the head, which has the same lookup semantics).
-/

/-- Insert-or-overwrite on a label map (Python dict assignment). -/
def setLabel (l : List (String × String)) (k v : String) :
    List (String × String) :=
  (k, v) :: l.filter fun kv => kv.1 ≠ k

/-- `spec.predictor` of a manifest, as far as `apply_yaml` inspects it:
the pod-template labels, each level optional. -/
structure ManifestPredictor where
  templateLabels : Option (List (String × String))
deriving DecidableEq, Repr

/-- A serving manifest, as far as `apply_yaml` inspects it. -/
structure ManifestDoc where
  kind : String
  apiVersion : String
  name : String
  metaLabels : Option (List (String × String))
  predictor : Option ManifestPredictor
deriving DecidableEq, Repr

/-- The label-injection step of `apply_yaml`: for an `InferenceService`,
create `metadata.labels` if absent and set `model-id`; when the document
has `spec.predictor`, do the same for the pod-template labels.  Any other
kind is left untouched. -/
def applyYamlLabels (modelId : String) (m : ManifestDoc) : ManifestDoc :=
  if m.kind = "InferenceService" then
    { m with
      metaLabels := some (setLabel (m.metaLabels.getD []) "model-id" modelId),
      predictor := m.predictor.map fun p =>
        { p with
          templateLabels :=
            some (setLabel (p.templateLabels.getD []) "model-id" modelId) } }
  else m

/-- The metadata of a created Kubernetes object. -/
structure ObjectMeta where
  name : String
  ns : String
  labels : List (String × String)
deriving DecidableEq, Repr

/-- The LoadBalancer `V1Service` built by `create_load_balancer`:
`V1ObjectMeta(name=f"{model_name}-lb", namespace=namespace)` — no labels —
with selector `serving.knative.dev/service = {model_name}-predictor` and
port 80 → 8080. -/
structure LbService where
  meta : ObjectMeta
  selector : List (String × String)
  port : ℕ
  targetPort : ℕ
deriving DecidableEq, Repr

def lbService (modelName ns : String) : LbService :=
  { meta := { name := modelName ++ "-lb", ns := ns, labels := [] },
    selector := [("serving.knative.dev/service", modelName ++ "-predictor")],
    port := 80,
    targetPort := 8080 }

/-- C7 counterexample: the LoadBalancer service created during a start
carries no labels at all, in particular no `model-id` label. -/
theorem lb_service_has_no_model_id_label :
    (lbService "alpha" "huggingface-models").meta.labels.lookup "model-id"
      = none ∧
    (lbService "alpha" "huggingface-models").meta.labels = [] := by
  decide

/-- Amended C7: only the InferenceService is stamped — `apply_yaml` sets
`model-id={model_id}` on the manifest metadata and, when the document has
`spec.predictor`, on the predictor pod template; the LoadBalancer service
is created without labels. -/
theorem apply_yaml_stamps_model_id (modelId : String) (m : ManifestDoc)
    (p : ManifestPredictor)
    (hk : m.kind = "InferenceService") (hp : m.predictor = some p) :
    ((applyYamlLabels modelId m).metaLabels.getD []).lookup "model-id"
      = some modelId ∧
    ∃ q, (applyYamlLabels modelId m).predictor = some q ∧
      (q.templateLabels.getD []).lookup "model-id" = some modelId ∧
    ∀ name ns, (lbService name ns).meta.labels = [] := by
  refine ⟨?_, ?_⟩
  · simp [applyYamlLabels, hk, setLabel, List.lookup]
  · refine ⟨⟨some (setLabel (p.templateLabels.getD []) "model-id" modelId)⟩,
      ?_, ?_, ?_⟩
    · simp [applyYamlLabels, hk, hp]
    · simp [setLabel, List.lookup]
    · intro name ns
      rfl

theorem apply_yaml_stamps_witness :
    (((applyYamlLabels "id-1"
        ⟨"InferenceService", "serving.kserve.io/v1beta1", "alpha", none,
          some ⟨none⟩⟩).metaLabels.getD []).lookup "model-id")
      = some "id-1" := by
  exact (apply_yaml_stamps_model_id "id-1"
    ⟨"InferenceService", "serving.kserve.io/v1beta1", "alpha", none,
      some ⟨none⟩⟩ ⟨none⟩ rfl rfl).1

end KMS

namespace KMS

/-!
Memory parsing (`ResourceAnalyzer._parse_memory`).  The Python code parses
the numeric prefix with `float(...)` and multiplies by the unit factors in
binary64 arithmetic before truncating with `int(...)`.  Binary64 rounding
of an integer is modelled exactly: round-to-nearest, ties-to-even, with
spacing `2^(⌊log2 n⌋ - 52)` above `2^53` (the sources never feed values
near binary64 overflow).  The numeric-literal model covers the
non-negative integer literals that every claim input uses; other literal
forms (fractions, exponents) are outside the embedding's domain and yield
`none`.  Python strings are modelled as their character lists.
-/

/-- Fuelled ⌊log₂⌋; fuel 1100 covers every value below `2 ^ 1100`. -/
def lg2F : ℕ → ℕ → ℕ
  | 0, _ => 0
  | f + 1, n => if 2 ≤ n then lg2F f (n / 2) + 1 else 0

def lg2 (n : ℕ) : ℕ := lg2F 1100 n

/-- Round `n` to the nearest multiple of `s`, ties to the even multiple. -/
def roundNEmult (n s : ℕ) : ℕ :=
  let q := n / s
  let r := n % s
  if 2 * r < s then q * s
  else if s < 2 * r then (q + 1) * s
  else if q % 2 = 0 then q * s else (q + 1) * s

/-- IEEE-754 binary64 rounding (round-to-nearest, ties-to-even) of a
natural number: exact up to `2 ^ 53`, else rounded to the binade
spacing. -/
def roundB64 (n : ℕ) : ℕ :=
  if n ≤ 2 ^ 53 then n else roundNEmult n (2 ^ (lg2 n - 52))

/-- One binary64 multiplication of two exactly-represented integers. -/
def mulFloat (x c : ℕ) : ℕ := roundB64 (x * c)

/-- The left-associated chain `x * c * c * … * c` (`k` factors) in
binary64, as written in `_parse_memory`'s unit branches. -/
def chainMul (x c : ℕ) : ℕ → ℕ
  | 0 => x
  | k + 1 => chainMul (mulFloat x c) c k

def digitVal? (c : Char) : Option ℕ :=
  if 48 ≤ c.toNat ∧ c.toNat ≤ 57 then some (c.toNat - 48) else none

def digitsValAux : ℕ → List Char → Option ℕ
  | acc, [] => some acc
  | acc, c :: cs =>
      match digitVal? c with
      | some d => digitsValAux (acc * 10 + d) cs
      | none => none

/-- Value of a decimal digit string — the model of Python
`float(...)`/`int(...)` input on the non-negative integer literals the
claims quantify over; `none` marks the empty string (Python would raise)
and literals outside this sub-grammar. -/
def digitsVal? : List Char → Option ℕ
  | [] => none
  | cs => digitsValAux 0 cs

/-- Python `str.endswith`. -/
def endsWithC (l suf : List Char) : Bool := suf.isSuffixOf l

/-- A binary-unit branch of `_parse_memory`:
`int(float(memory_str[:-2]) * 1024 * … * 1024)` with `k` factors. -/
def binSuffix (cs : List Char) (k : ℕ) : Option ℕ :=
  (digitsVal? (cs.take (cs.length - 2))).map fun v => chainMul (roundB64 v) 1024 k

/-- A decimal-unit branch of `_parse_memory`:
`int(float(memory_str[:-1]) * 1000 * … * 1000)` with `k` factors. -/
def decSuffix (cs : List Char) (k : ℕ) : Option ℕ :=
  (digitsVal? (cs.take (cs.length - 1))).map fun v => chainMul (roundB64 v) 1000 k

/-- `_parse_memory` (resource_analyzer.py): empty input is 0 bytes; the
suffixes `Ki,Mi,Gi,Ti,Pi,Ei` scale by powers of 1024, `K,k,M,G,T,P,E` by
powers of 1000, in the source's branch order; a bare numeral is bytes. -/
def parseMemory (cs : List Char) : Option ℕ :=
  if cs = [] then some 0
  else if endsWithC cs ['K', 'i'] then binSuffix cs 1
  else if endsWithC cs ['M', 'i'] then binSuffix cs 2
  else if endsWithC cs ['G', 'i'] then binSuffix cs 3
  else if endsWithC cs ['T', 'i'] then binSuffix cs 4
  else if endsWithC cs ['P', 'i'] then binSuffix cs 5
  else if endsWithC cs ['E', 'i'] then binSuffix cs 6
  else if endsWithC cs ['K'] || endsWithC cs ['k'] then decSuffix cs 1
  else if endsWithC cs ['M'] then decSuffix cs 2
  else if endsWithC cs ['G'] then decSuffix cs 3
  else if endsWithC cs ['T'] then decSuffix cs 4
  else if endsWithC cs ['P'] then decSuffix cs 5
  else if endsWithC cs ['E'] then decSuffix cs 6
  else (digitsVal? cs).map roundB64

def digitChar (d : ℕ) : Char := Char.ofNat (48 + d)

/-- Modelled from the spec: the canonical formatting of a byte count is
the bare decimal numeral (bare numerics denote bytes in the declared
grammar); the repository itself contains no formatter. -/
def formatBytes (n : ℕ) : List Char :=
  if n = 0 then ['0'] else (Nat.digits 10 n).reverse.map digitChar

theorem digitVal?_digitChar {d : ℕ} (hd : d < 10) :
    digitVal? (digitChar d) = some d := by
  interval_cases d <;> decide

theorem digitChar_toNat {d : ℕ} (hd : d < 10) :
    (digitChar d).toNat = 48 + d := by
  interval_cases d <;> decide

theorem digitsValAux_map (ds : List ℕ) (acc : ℕ) (h : ∀ d ∈ ds, d < 10) :
    digitsValAux acc (ds.map digitChar)
      = some (ds.foldl (fun a d => a * 10 + d) acc) := by
  induction ds generalizing acc with
  | nil => rfl
  | cons d tl ih =>
      have hd : d < 10 := h d (by simp)
      simp only [List.map_cons, digitsValAux, digitVal?_digitChar hd,
        List.foldl_cons]
      exact ih _ fun x hx => h x (by simp [hx])

theorem foldr_eq_ofDigits (l : List ℕ) :
    l.foldr (fun d a => a * 10 + d) 0 = Nat.ofDigits 10 l := by
  induction l with
  | nil => simp [Nat.ofDigits]
  | cons d tl ih => simp [Nat.ofDigits, List.foldr_cons, ih]; ring

theorem digitsVal?_formatBytes (n : ℕ) :
    digitsVal? (formatBytes n) = some n := by
  by_cases h0 : n = 0
  · subst h0; decide
  · have hd : ∀ d ∈ (Nat.digits 10 n).reverse, d < 10 := by
      intro d hdm
      exact Nat.digits_lt_base (by norm_num) (List.mem_reverse.mp hdm)
    have hne : (Nat.digits 10 n).reverse.map digitChar ≠ [] := by
      simp [Nat.digits_ne_nil_iff_ne_zero.mpr h0]
    unfold formatBytes
    rw [if_neg h0]
    rcases hcs : (Nat.digits 10 n).reverse.map digitChar with _ | ⟨c, rest⟩
    · exact absurd hcs hne
    · rw [← hcs]
      have : digitsVal? ((Nat.digits 10 n).reverse.map digitChar)
          = digitsValAux 0 ((Nat.digits 10 n).reverse.map digitChar) := by
        rw [hcs]; rfl
      rw [this, digitsValAux_map _ _ hd, List.foldl_reverse,
        foldr_eq_ofDigits, Nat.ofDigits_digits]

theorem formatBytes_last_digit (n : ℕ) :
    ∃ c, (formatBytes n).getLast? = some c ∧ 48 ≤ c.toNat ∧ c.toNat ≤ 57 := by
  by_cases h0 : n = 0
  · subst h0; exact ⟨'0', by decide, by decide, by decide⟩
  · refine ⟨digitChar (n % 10), ?_, ?_, ?_⟩
    · unfold formatBytes
      rw [if_neg h0, List.getLast?_map, List.getLast?_reverse,
        Nat.digits_def' (by norm_num : 1 < 10) (Nat.pos_of_ne_zero h0)]
      rfl
    · rw [digitChar_toNat (Nat.mod_lt n (by norm_num))]; omega
    · rw [digitChar_toNat (Nat.mod_lt n (by norm_num))]
      have := Nat.mod_lt n (show 0 < 10 by norm_num)
      omega

theorem endsWithC_false_of_last {cs suf : List Char} {c c' : Char}
    (hlast : cs.getLast? = some c) (hsuf : suf.getLast? = some c')
    (hne : c ≠ c') : endsWithC cs suf = false := by
  by_contra h
  have htrue : suf.isSuffixOf cs = true := by
    unfold endsWithC at h
    revert h
    cases suf.isSuffixOf cs <;> simp
  obtain ⟨t, rfl⟩ := List.isSuffixOf_iff_suffix.mp htrue
  have hsne : suf ≠ [] := by
    intro hnil
    rw [hnil] at hsuf
    simp at hsuf
  rw [List.getLast?_append_of_ne_nil _ hsne] at hlast
  rw [hlast] at hsuf
  exact hne (by injection hsuf)

theorem parse_format (n : ℕ) :
    parseMemory (formatBytes n) = some (roundB64 n) := by
  by_cases h0 : n = 0
  · subst h0; decide
  · obtain ⟨c, hlast, h48, h57⟩ := formatBytes_last_digit n
    have hne : formatBytes n ≠ [] := by
      intro hnil
      rw [hnil] at hlast
      simp at hlast
    have hi : c ≠ 'i' := fun h => by subst h; revert h57; decide
    have hK : c ≠ 'K' := fun h => by subst h; revert h57; decide
    have hk : c ≠ 'k' := fun h => by subst h; revert h57; decide
    have hM : c ≠ 'M' := fun h => by subst h; revert h57; decide
    have hG : c ≠ 'G' := fun h => by subst h; revert h57; decide
    have hT : c ≠ 'T' := fun h => by subst h; revert h57; decide
    have hP : c ≠ 'P' := fun h => by subst h; revert h57; decide
    have hE : c ≠ 'E' := fun h => by subst h; revert h57; decide
    unfold parseMemory
    rw [if_neg hne,
      endsWithC_false_of_last hlast (by decide) hi,
      endsWithC_false_of_last hlast (by decide) hi,
      endsWithC_false_of_last hlast (by decide) hi,
      endsWithC_false_of_last hlast (by decide) hi,
      endsWithC_false_of_last hlast (by decide) hi,
      endsWithC_false_of_last hlast (by decide) hi,
      endsWithC_false_of_last hlast (by decide) hK,
      endsWithC_false_of_last hlast (by decide) hk,
      endsWithC_false_of_last hlast (by decide) hM,
      endsWithC_false_of_last hlast (by decide) hG,
      endsWithC_false_of_last hlast (by decide) hT,
      endsWithC_false_of_last hlast (by decide) hP,
      endsWithC_false_of_last hlast (by decide) hE]
    simp only [Bool.or_self, if_false, Bool.false_eq_true]
    rw [digitsVal?_formatBytes]
    rfl

/-- C8 counterexample: parsing is not injective over the suffix grammar
(`1Ki` and `1024` parse alike), and the round-trip identity fails inside
the claimed range: `2^53 + 1 ≤ 2^60`, yet parsing the canonical formatting
of `2^53 + 1` bytes yields `2^53` (the nearest binary64 value), not
`2^53 + 1`. -/
theorem parse_memory_bijection_refuted :
    (2 : ℕ) ^ 53 + 1 ≤ 2 ^ 60 ∧
    parseMemory (formatBytes (2 ^ 53 + 1)) = some (2 ^ 53) ∧
    (2 : ℕ) ^ 53 ≠ 2 ^ 53 + 1 ∧
    parseMemory ['1', 'K', 'i'] = parseMemory ['1', '0', '2', '4'] := by
  refine ⟨by norm_num, ?_, by norm_num, by decide⟩
  rw [parse_format]
  decide

/-- Claim C8 (amended): memory parsing is not a bijection, and the
round-trip `parse (format n) = n` holds exactly on the binary64-exact
range: for every `n ≤ 2^53` (hence for 0, 1, 1024 and 1024²) parsing the
canonical decimal formatting of `n` bytes returns exactly `n`, while for
`n` up to `2^60` it returns the nearest binary64 integer `roundB64 n`,
which can differ from `n` above `2^53`. -/
theorem parse_memory_roundtrip (n : ℕ) (hn : n ≤ 2 ^ 60) :
    parseMemory (formatBytes n) = some (roundB64 n) ∧
    (n ≤ 2 ^ 53 → parseMemory (formatBytes n) = some n) := by
  refine ⟨parse_format n, fun h53 => ?_⟩
  rw [parse_format n]
  unfold roundB64
  rw [if_pos h53]

theorem parse_memory_roundtrip_witness :
    (1024 : ℕ) ≤ 2 ^ 60 ∧ parseMemory (formatBytes 1024) = some 1024 :=
  ⟨by norm_num, (parse_memory_roundtrip 1024 (by norm_num)).2 (by norm_num)⟩

end KMS

namespace KMS

/-!
Readiness gate (`KServeMixin.wait_for_model_ready`).  The wall-clock while
loop (500 s deadline, 5 s cadence) is modelled by the finite list of
per-iteration observations the deadline admits: each iteration observes
the load-balancer address (`none` when `get_load_balancer_ip` returned
nothing) and, when an address is present, the health-probe outcome.
Exhausting the list is the deadline timing out.
-/

/-- One iteration's observations: the acquired load-balancer address, and
whether `check_model_health_endpoint` succeeded at that address. -/
structure Poll where
  ip : Option String
  healthy : Bool
deriving DecidableEq, Repr

/-- The loop of `wait_for_model_ready`, carrying
`failed_lb_ip_acquisition_count`: a missing address increments the counter
and aborts once the counter exceeds 3; an address with a healthy probe
returns `true`; the counter is never reset. -/
def waitAux (failCount : ℕ) : List Poll → Bool
  | [] => false
  | p :: rest =>
      match p.ip with
      | none =>
          if failCount + 1 > 3 then false
          else waitAux (failCount + 1) rest
      | some _ =>
          if p.healthy then true else waitAux failCount rest

/-- `wait_for_model_ready` (kserve_mixin.py). -/
def waitForModelReady (obs : List Poll) : Bool :=
  waitAux 0 obs

/-- C9 counterexample: after the load-balancer address acquisition fails
three consecutive times, the gate does not abort — it keeps polling, and
here even returns ready on the fourth iteration. -/
theorem readiness_gate_continues_after_three_failures :
    waitForModelReady
      [⟨none, false⟩, ⟨none, false⟩, ⟨none, false⟩, ⟨some "ip", true⟩]
      = true := by
  decide

/-- Invariant of the failure counter: once the counter plus the failed
acquisitions still ahead in `pre` reach four (while the counter is still
within the loop's live range `≤ 3`, and no poll in `pre` observes a healthy
endpoint, which would return early), the loop returns `false` no matter
what observations follow. -/
theorem waitAux_false_of_four_failures (pre : List Poll) :
    ∀ (rest : List Poll) (f : ℕ), f ≤ 3 →
      (∀ q ∈ pre, q.ip = none ∨ q.healthy = false) →
      4 ≤ f + pre.countP (fun q => q.ip.isNone) →
      waitAux f (pre ++ rest) = false := by
  induction pre with
  | nil =>
      intro rest f hf _ hcount
      simp only [List.countP_nil] at hcount
      omega
  | cons q tl ih =>
      intro rest f hf hall hcount
      have hq := hall q (by simp)
      have htl : ∀ p ∈ tl, p.ip = none ∨ p.healthy = false :=
        fun p hp => hall p (by simp [hp])
      rcases hip : q.ip with _ | addr
      · by_cases habort : f + 1 > 3
        · simp [waitAux, hip, habort]
        · rw [List.cons_append]
          rw [show waitAux f (q :: (tl ++ rest))
              = waitAux (f + 1) (tl ++ rest) by simp [waitAux, hip, habort]]
          refine ih rest (f + 1) (by omega) htl ?_
          rw [List.countP_cons] at hcount
          simp [hip] at hcount ⊢
          omega
      · rcases hq with hq | hq
        · rw [hip] at hq; cases hq
        · rw [List.cons_append]
          rw [show waitAux f (q :: (tl ++ rest))
              = waitAux f (tl ++ rest) by simp [waitAux, hip, hq]]
          refine ih rest f hf htl ?_
          rw [List.countP_cons] at hcount
          simp [hip] at hcount ⊢
          omega

/-- Claim C9 (amended): the gate stops early exactly when the acquisition
failure counter exceeds three — on the fourth failed acquisition; the
counter is never reset, so the failures need not be consecutive: any polls
interleaved between them that do acquire an address but see an unhealthy
probe leave the counter unchanged — and it reports the abort as a plain
not-ready result, regardless of any further observations the deadline
would still admit. -/
theorem readiness_gate_aborts_on_fourth_failure
    (pre rest : List Poll)
    (hfail : ∀ q ∈ pre, q.ip = none ∨ q.healthy = false)
    (hcount : 4 ≤ pre.countP (fun q => q.ip.isNone)) :
    waitForModelReady (pre ++ rest) = false := by
  exact waitAux_false_of_four_failures pre rest 0 (by omega) hfail
    (by simpa using hcount)

theorem readiness_gate_aborts_witness :
    (∀ q ∈ ([⟨none, false⟩, ⟨some "ip", false⟩, ⟨none, false⟩,
        ⟨none, false⟩, ⟨some "ip", false⟩, ⟨none, false⟩] : List Poll),
      q.ip = none ∨ q.healthy = false) ∧
    4 ≤ ([⟨none, false⟩, ⟨some "ip", false⟩, ⟨none, false⟩,
        ⟨none, false⟩, ⟨some "ip", false⟩, ⟨none, false⟩] :
          List Poll).countP (fun q => q.ip.isNone) ∧
    waitForModelReady
      ([⟨none, false⟩, ⟨some "ip", false⟩, ⟨none, false⟩,
        ⟨none, false⟩, ⟨some "ip", false⟩, ⟨none, false⟩]
        ++ [⟨some "ip", true⟩]) = false :=
  ⟨by decide, by decide,
    readiness_gate_aborts_on_fourth_failure
      [⟨none, false⟩, ⟨some "ip", false⟩, ⟨none, false⟩,
        ⟨none, false⟩, ⟨some "ip", false⟩, ⟨none, false⟩]
      [⟨some "ip", true⟩] (by decide) (by decide)⟩

end KMS
